import Mathlib

/-!
Shallow embedding of `src/drmgr/common_numa.c` from powerpc-utils.

The C file builds an in-memory NUMA topology: a node registry
(`ppcnuma_fetch_node`), a live discovery scan (`read_numa_topology`),
a block allocator (`create_lmbs`) drawing DRC indices from a static
`unsigned int` counter, a static config loader (`ppcnuma_get_config`)
and the orchestrator (`ppcnuma_get_topology`).

Modelling conventions:
* C machine integers are `Int` (C `int`) or `Nat` with explicit `% 2^32`
  (C `unsigned int`, e.g. the static `drc_index` counter).
* Heap-allocation success (`zalloc`) is an explicit boolean oracle
  parameter; external libnuma and libconfig collaborators are explicit
  function parameters (`ScanEnv`, a parsed entry list).
* The fixed-capacity node array `numa->nodes[MAX_NUMNODES]` is a sparse
  association list from node id to node; `MAX_NUMNODES` is defined in
  `common_numa.h`, which is outside this source unit, so it is a
  parameter `maxN` everywhere (the spec fixes only that it is a positive
  platform capacity).
* A ghost field `trace` records every DRC index handed to a successfully
  created block, in allocation order, so that process-lifetime ordering
  properties can be stated; it shadows the contents of the `lmb_list`
  that `create_lmbs` builds via `lmb_list_add`.
-/

set_option maxHeartbeats 1000000

namespace CommonNuma

/-- Modulus of a C `unsigned int` (32 bits). -/
def U32 : Nat := 4294967296

/-- Initial value of the static counter in `create_lmbs`:
`static unsigned int drc_index = 0xdeadbeef;`. -/
def DRC_INIT : Nat := 0xdeadbeef

/-- `struct ppcnuma_node`: node id, CPU count, LMB count, and the
node-scoped block list (`node->lmbs`, newest first; each block is
represented by its DRC index). -/
structure PNode where
  node_id : Int
  n_cpus : Nat
  n_lmbs : Nat
  lmbs : List Nat
deriving DecidableEq

/-- `struct ppcnuma_topology`: sparse node map plus the aggregate
counters.  The opaque associativity-array field `aa` is omitted (it is
never read or written by this source unit beyond being filled by an
external call). -/
structure Topology where
  nodes : List (Int × PNode)
  node_count : Nat
  node_min : Int
  node_max : Int
  cpu_count : Nat
  lmb_count : Nat
  cpuless_lmb_count : Nat
  min_common_depth : Nat
  numa_enabled : Bool
deriving DecidableEq

/-- A zero-initialised `struct ppcnuma_topology`. -/
def emptyTopology : Topology :=
  { nodes := []
    node_count := 0
    node_min := 0
    node_max := 0
    cpu_count := 0
    lmb_count := 0
    cpuless_lmb_count := 0
    min_common_depth := 0
    numa_enabled := false }

/-- Process state: the topology under construction, the static
`drc_index` counter of `create_lmbs`, and the ghost allocation trace. -/
structure PState where
  numa : Topology
  drc : Nat
  trace : List Nat
deriving DecidableEq

/-- Process start: zeroed topology, `drc_index` at its seed value. -/
def initPState : PState :=
  { numa := emptyTopology, drc := DRC_INIT, trace := [] }

/-- The two ways `ppcnuma_fetch_node` returns NULL: the range check
(`report_unknown_error`) and a failed `zalloc`. -/
inductive FetchErr
  | InvalidNodeId
  | OutOfMemory
deriving DecidableEq

/-- Reading `numa->nodes[nid]` from the sparse map. -/
def lookupNode : List (Int × PNode) → Int → Option PNode
  | [], _ => none
  | (k, v) :: rest, nid => if k = nid then some v else lookupNode rest nid

/-- Writing through an in-place node pointer: replace the (first, and by
construction only) entry stored at `nid`. -/
def replaceNode : List (Int × PNode) → Int → PNode → List (Int × PNode)
  | [], _, _ => []
  | (k, v) :: rest, nid, n =>
    if k = nid then (nid, n) :: rest else (k, v) :: replaceNode rest nid n

/-- `ppcnuma_fetch_node(numa, nid)`.  Note the guard is literally
`if (nid > MAX_NUMNODES)`: only ids strictly greater than `maxN` are
rejected.  `allocOk` is the `zalloc` success oracle. -/
def ppcnuma_fetch_node (maxN : Int) (allocOk : Bool) (numa : Topology)
    (nid : Int) : Except FetchErr (PNode × Topology) :=
  if maxN < nid then
    Except.error FetchErr.InvalidNodeId
  else
    match lookupNode numa.nodes nid with
    | some node => Except.ok (node, numa)
    | none =>
      if allocOk = false then
        Except.error FetchErr.OutOfMemory
      else
        let node : PNode := { node_id := nid, n_cpus := 0, n_lmbs := 0, lmbs := [] }
        Except.ok (node,
          { numa with
            nodes := (nid, node) :: numa.nodes
            node_count := numa.node_count + 1
            node_min :=
              if numa.node_count = 0 ∨ nid < numa.node_min then nid else numa.node_min
            node_max :=
              if numa.node_max < nid then nid else numa.node_max })

/-- `struct lmb_list_head`: sort tag fixed at creation plus the blocks
added to it by `lmb_list_add` (identified by their DRC index). -/
structure LmbListHead where
  sort : Nat
  lmbs : List Nat
deriving DecidableEq

/-- Result of the per-block loop of `create_lmbs`: the mutated node, the
static counter, the two global block totals, and the blocks accumulated
into the local `lmb_list` (allocation order). -/
structure LoopOut where
  node : PNode
  drc : Nat
  lmb_count : Nat
  cpuless_lmb_count : Nat
  acc : List Nat
deriving DecidableEq

/-- The `for (i = 0; i < count; i++)` loop of `create_lmbs`, one boolean
of `oks` per iteration telling whether `lmb_list_add` (its `zalloc`)
succeeds.  `drc_index++` is evaluated before the result check, so the
counter advances on every iteration. -/
def create_lmbs_loop : List Bool → Nat → PNode → Nat → Nat → List Nat → LoopOut
  | [], d, node, lc, cc, acc =>
    { node := node, drc := d, lmb_count := lc, cpuless_lmb_count := cc, acc := acc }
  | true :: rest, d, node, lc, cc, acc =>
    if 0 < node.n_cpus then
      create_lmbs_loop rest ((d + 1) % U32)
        { node with lmbs := d :: node.lmbs, n_lmbs := node.n_lmbs + 1 }
        (lc + 1) cc (acc ++ [d])
    else
      create_lmbs_loop rest ((d + 1) % U32)
        { node with lmbs := d :: node.lmbs, n_lmbs := node.n_lmbs + 1 }
        lc (cc + 1) (acc ++ [d])
  | false :: rest, d, node, lc, cc, acc =>
    create_lmbs_loop rest ((d + 1) % U32) node lc cc acc

/-- Result of `create_lmbs`: `lmb_list = none` models the early
`return` when the list-head `zalloc` fails (nothing else is touched). -/
structure CreateOut where
  node : PNode
  drc : Nat
  lmb_count : Nat
  cpuless_lmb_count : Nat
  lmb_list : Option LmbListHead
deriving DecidableEq

/-- `create_lmbs(sort, node, count)` acting on the node it was handed
plus the globals it touches (`drc_index`, `numa.lmb_count`,
`numa.cpuless_lmb_count`).  `count` is `oks.length`. -/
def create_lmbs (sort : Nat) (node : PNode) (headOk : Bool) (oks : List Bool)
    (d lc cc : Nat) : CreateOut :=
  if headOk = false then
    { node := node, drc := d, lmb_count := lc, cpuless_lmb_count := cc, lmb_list := none }
  else
    let out := create_lmbs_loop oks d node lc cc []
    { node := out.node
      drc := out.drc
      lmb_count := out.lmb_count
      cpuless_lmb_count := out.cpuless_lmb_count
      lmb_list := some { sort := sort, lmbs := out.acc } }

/-- The DRC indices of the blocks a `create_lmbs` call actually
created (the contents of its `lmb_list`). -/
def assignedOf (o : CreateOut) : List Nat :=
  match o.lmb_list with
  | none => []
  | some h => h.lmbs

/-- A `create_lmbs` call addressed at the node stored at `nid`,
threading the process state.  If no node is stored there the call is a
no-op (in C the caller always passes a pointer to a stored node). -/
def create_lmbs_st (sort : Nat) (nid : Int) (headOk : Bool) (oks : List Bool)
    (st : PState) : PState :=
  match lookupNode st.numa.nodes nid with
  | none => st
  | some node =>
    let out := create_lmbs sort node headOk oks st.drc st.numa.lmb_count
      st.numa.cpuless_lmb_count
    { numa :=
        { st.numa with
          nodes := replaceNode st.numa.nodes nid out.node
          lmb_count := out.lmb_count
          cpuless_lmb_count := out.cpuless_lmb_count }
      drc := out.drc
      trace := st.trace ++ assignedOf out }

/-- The libnuma collaborator as seen by `read_numa_topology`, plus the
node `zalloc` oracle: `numa_available() >= 0`, `numa_max_node()`,
`numa_bitmask_isbitset(numa_nodes_ptr, nid)`, and `numa_node_to_cpus`
(`none` = negative return code, otherwise the CPU bitmask). -/
structure ScanEnv where
  available : Bool
  max_node : Int
  node_present : Int → Bool
  node_cpus : Int → Option (List Bool)
  node_alloc_ok : Int → Bool

/-- Return codes of `read_numa_topology`: `-ENOENT`, `-EINVAL`,
`-ENOMEM`, and a negative `numa_node_to_cpus` code. -/
inductive ScanErr
  | NoNuma
  | TooManyNodes
  | OutOfMemory
  | CpuQueryFailed
deriving DecidableEq

/-- The candidate node ids `0 .. max_node` of the discovery loop. -/
def nodeIdRange (maxNode : Int) : List Int :=
  if maxNode < 0 then [] else (List.range (maxNode.toNat + 1)).map Int.ofNat

/-- The `for (nid = 0; nid <= max_node; nid++)` loop of
`read_numa_topology`, with its two `break`-on-error exits.  A fetch
failure is reported as `-ENOMEM` exactly as in the C (`if (!node)
rc = -ENOMEM`).  On success the bit count of the node's CPU mask is
added to `node->n_cpus` and then `numa->cpu_count += node->n_cpus`. -/
def scanLoop (maxN : Int) (env : ScanEnv) : List Int → Topology → Topology × Option ScanErr
  | [], numa => (numa, none)
  | nid :: rest, numa =>
    if env.node_present nid = false then
      scanLoop maxN env rest numa
    else
      match ppcnuma_fetch_node maxN (env.node_alloc_ok nid) numa nid with
      | Except.error _ => (numa, some ScanErr.OutOfMemory)
      | Except.ok (node, numa1) =>
        match env.node_cpus nid with
        | none => (numa1, some ScanErr.CpuQueryFailed)
        | some mask =>
          let node1 : PNode := { node with n_cpus := node.n_cpus + mask.count true }
          let numa2 : Topology :=
            { numa1 with
              nodes := replaceNode numa1.nodes nid node1
              cpu_count := numa1.cpu_count + node1.n_cpus }
          scanLoop maxN env rest numa2

/-- The `if (rc)` cleanup of `read_numa_topology`: `ppcnuma_foreach_node`
resetting `node->n_cpus = 0` on every populated node, then
`numa->cpu_count = 0`.  (`ppcnuma_foreach_node` lives in
`common_numa.h`, outside this source unit; modelled from the spec as
iterating every populated node of the topology.) -/
def rollbackCpus (t : Topology) : Topology :=
  { t with
    nodes := t.nodes.map (fun p => (p.1, { p.2 with n_cpus := 0 }))
    cpu_count := 0 }

/-- `read_numa_topology(numa)`. -/
def read_numa_topology (maxN : Int) (env : ScanEnv) (numa : Topology) :
    Topology × Option ScanErr :=
  if env.available = false then
    (numa, some ScanErr.NoNuma)
  else if maxN ≤ env.max_node then
    (numa, some ScanErr.TooManyNodes)
  else
    match scanLoop maxN env (nodeIdRange env.max_node) numa with
    | (mid, some e) => (rollbackCpus mid, some e)
    | (mid, none) => (mid, none)

/-- One parsed node entry of the static description.  Modelled from the
spec: the external structured-description reader delivers ordered
`(node_id, cpu_count, memory_blocks)` tuples; the C fragment's lookup
code is not compilable as written (it reads fields through the not yet
assigned `node` pointer), so the entry is taken as already parsed. -/
structure ConfigEntry where
  node : Int
  cpus : Nat
  mem : Nat
deriving DecidableEq

/-- Error results of `ppcnuma_get_config` and `ppcnuma_get_topology`
(the C conflates several of these into `-1`; they are kept distinct
here, matching the spec's error taxonomy). -/
inductive GetErr
  | ConfigError
  | NoNuma
  | DepthError
  | AssocError
  | ScanFail (e : ScanErr)
  | EmptyTopology
deriving DecidableEq

/-- The per-entry loop of `ppcnuma_get_config`: fetch-or-create the
node (fail the whole load on NULL), assign `node->n_cpus = cpus`
directly, and call `create_lmbs(node, mem)`.  The allocation oracles
are indexed by the entry position; the `sort` argument is absent at the
(arity-mismatched) C call site and is taken as `0`. -/
def configLoop (maxN : Int) (nodeOk : Nat → Bool) (headOk : Nat → Bool)
    (lmbOk : Nat → Nat → Bool) :
    List ConfigEntry → Nat → PState → PState × Option GetErr
  | [], _, st => (st, none)
  | e :: rest, i, st =>
    match ppcnuma_fetch_node maxN (nodeOk i) st.numa e.node with
    | Except.error _ => (st, some GetErr.ConfigError)
    | Except.ok (node, numa1) =>
      let node1 : PNode := { node with n_cpus := e.cpus }
      let numa2 : Topology := { numa1 with nodes := replaceNode numa1.nodes e.node node1 }
      let st1 := create_lmbs_st 0 e.node (headOk i) ((List.range e.mem).map (lmbOk i))
        { st with numa := numa2 }
      configLoop maxN nodeOk headOk lmbOk rest (i + 1) st1

/-- `ppcnuma_get_config(numa, cfgfile)`: `parsed = none` is a
`config_read_file` failure; on success the entry loop runs and then the
`numa_enabled` flag is raised.  There is no validation of the resulting
topology on this path. -/
def ppcnuma_get_config (maxN : Int) (nodeOk : Nat → Bool) (headOk : Nat → Bool)
    (lmbOk : Nat → Nat → Bool) (parsed : Option (List ConfigEntry))
    (st : PState) : PState × Option GetErr :=
  match parsed with
  | none => (st, some GetErr.ConfigError)
  | some entries =>
    match configLoop maxN nodeOk headOk lmbOk entries 0 st with
    | (st1, some e) => (st1, some e)
    | (st1, none) =>
      ({ st1 with numa := { st1.numa with numa_enabled := true } }, none)

/-- `ppcnuma_get_topology(numa)`.  In test mode (`test_option` set) it
returns `ppcnuma_get_config`'s result directly; only the live path runs
`numa_available`, `get_min_common_depth` (`depth`), `get_assoc_arrays`
(`assocOk`), `read_numa_topology` and the final
`if (!numa->node_count) return -1` check. -/
def ppcnuma_get_topology (maxN : Int) (env : ScanEnv) (depth : Option Nat)
    (assocOk : Bool) (test_mode : Bool) (parsed : Option (List ConfigEntry))
    (nodeOk headOk : Nat → Bool) (lmbOk : Nat → Nat → Bool)
    (st : PState) : PState × Option GetErr :=
  if test_mode then
    ppcnuma_get_config maxN nodeOk headOk lmbOk parsed st
  else if env.available = false then
    (st, some GetErr.NoNuma)
  else
    match depth with
    | none => (st, some GetErr.DepthError)
    | some d =>
      let stD : PState := { st with numa := { st.numa with min_common_depth := d } }
      if assocOk = false then
        (stD, some GetErr.AssocError)
      else
        match read_numa_topology maxN env stD.numa with
        | (numa1, some e) => ({ stD with numa := numa1 }, some (GetErr.ScanFail e))
        | (numa1, none) =>
          if numa1.node_count = 0 then
            ({ stD with numa := numa1 }, some GetErr.EmptyTopology)
          else
            ({ stD with numa := numa1 }, none)

/-- One registry or allocator call, for stating process-lifetime
invariants; `newTopology` starts a fresh topology build while the
static `drc_index` counter (and the ghost trace) persists. -/
inductive ProcOp
  | fetch (nid : Int) (allocOk : Bool)
  | alloc (sort : Nat) (nid : Int) (headOk : Bool) (oks : List Bool)
  | newTopology
deriving DecidableEq

/-- Apply one call to the process state.  A failed `fetch` mutates
nothing (both NULL returns of `ppcnuma_fetch_node` leave the topology
untouched). -/
def applyOp (maxN : Int) (st : PState) : ProcOp → PState
  | ProcOp.fetch nid a =>
    match ppcnuma_fetch_node maxN a st.numa nid with
    | Except.error _ => st
    | Except.ok (_, numa1) => { st with numa := numa1 }
  | ProcOp.alloc sort nid headOk oks => create_lmbs_st sort nid headOk oks st
  | ProcOp.newTopology => { st with numa := emptyTopology }

/-- A sequence of calls within one process lifetime. -/
def runProc (maxN : Int) : List ProcOp → PState → PState
  | [], st => st
  | op :: rest, st => runProc maxN rest (applyOp maxN st op)

/-- Number of `drc_index++` evaluations a call list performs (one per
loop iteration of every `create_lmbs` whose list-head allocation
succeeded), assuming every addressed node exists; an upper bound
otherwise. -/
def drawCount : List ProcOp → Nat
  | [] => 0
  | ProcOp.alloc _ _ true oks :: rest => oks.length + drawCount rest
  | _ :: rest => drawCount rest

/-- The DRC index values `create_lmbs` hands to successfully created
blocks when the counter starts at `d`, in allocation order. -/
def drawnVals (d : Nat) : List Bool → List Nat
  | [] => []
  | true :: rest => d :: drawnVals ((d + 1) % U32) rest
  | false :: rest => drawnVals ((d + 1) % U32) rest

/-- The ids of the nodes stored in a topology. -/
def nodeIds (t : Topology) : List Int := t.nodes.map Prod.fst

/-- Sum of `n_lmbs` over all stored nodes. -/
def sumNLmbs (t : Topology) : Nat := (t.nodes.map (fun p => p.2.n_lmbs)).sum

/-- Lift a list of node-creation requests to registry calls. -/
def fetchOps (l : List (Int × Bool)) : List ProcOp :=
  l.map (fun p => ProcOp.fetch p.1 p.2)

/-- The topology produced by loading the static description
`[{id:0, cpus:4, mem:8}, {id:2, cpus:2, mem:4}]` with every allocation
succeeding (capacity taken as 256). -/
def staticTwoNodeTopology : Topology :=
  (ppcnuma_get_config 256 (fun _ => true) (fun _ => true) (fun _ _ => true)
    (some [{ node := 0, cpus := 4, mem := 8 }, { node := 2, cpus := 2, mem := 4 }])
    initPState).1.numa

/-- C5: the claim says ids `≥ MAX_NUMNODES` fail with `InvalidNodeId`
and cause no mutation, matching the documented `[0, MAX_NODES)`
precondition and `read_numa_topology`'s own capacity check
(`max_node >= MAX_NUMNODES` is rejected).  The code's guard is
`nid > MAX_NUMNODES`, so the boundary id `MAX_NUMNODES` (256 here)
passes the check and the function stores a node one slot past the end
of the fixed-capacity array: the call does not return `InvalidNodeId`
and it mutates the topology. -/
theorem fetch_node_at_capacity_not_rejected :
    ppcnuma_fetch_node 256 true emptyTopology 256 ≠
      Except.error FetchErr.InvalidNodeId ∧
    ppcnuma_fetch_node 256 true emptyTopology 256 =
      Except.ok ({ node_id := 256, n_cpus := 0, n_lmbs := 0, lmbs := [] },
        { emptyTopology with
          nodes := [(256, { node_id := 256, n_cpus := 0, n_lmbs := 0, lmbs := [] })]
          node_count := 1
          node_min := 256
          node_max := 256 }) := by
  constructor
  · intro h
    have h2 : ppcnuma_fetch_node 256 true emptyTopology 256 =
        Except.ok ({ node_id := 256, n_cpus := 0, n_lmbs := 0, lmbs := [] },
          { emptyTopology with
            nodes := [(256, { node_id := 256, n_cpus := 0, n_lmbs := 0, lmbs := [] })]
            node_count := 1
            node_min := 256
            node_max := 256 }) := by rfl
    rw [h2] at h
    exact Except.noConfusion h
  · rfl

/-- C10: the range check of `ppcnuma_fetch_node` compares only against
the upper bound (`nid > MAX_NUMNODES`), so every negative node id
passes it: the call never takes the `InvalidNodeId` branch and proceeds
to index the node array with the negative id. -/
theorem fetch_node_negative_id_not_rejected (maxN : Int) (hm : 0 ≤ maxN)
    (nid : Int) (hn : nid < 0) (a : Bool) (numa : Topology) :
    ppcnuma_fetch_node maxN a numa nid ≠ Except.error FetchErr.InvalidNodeId := by
  have hguard : ¬ maxN < nid := by omega
  unfold ppcnuma_fetch_node
  rw [if_neg hguard]
  cases hl : lookupNode numa.nodes nid with
  | some node => intro h; exact Except.noConfusion h
  | none =>
    cases a with
    | false => intro h; exact FetchErr.noConfusion (Except.error.inj h)
    | true => intro h; exact Except.noConfusion h

/-- C10 witness: fetching node id `-1` on a capacity-256 topology does
not take the `InvalidNodeId` branch. -/
theorem fetch_node_negative_id_not_rejected_witness :
    ppcnuma_fetch_node 256 true emptyTopology (-1) ≠
      Except.error FetchErr.InvalidNodeId :=
  fetch_node_negative_id_not_rejected 256 (by decide) (-1) (by decide) true
    emptyTopology

/-- C4: for any node id, a successful fetch-or-create stores the node
(incrementing `node_count` exactly when the id was not yet present),
and every subsequent fetch-or-create with the same id — whatever its
allocation oracle — returns the identical node record and the identical
topology (so `node_count`, `node_min`, `node_max` and all other state
are unchanged); iterating this, all calls after the first are pure
reads. -/
theorem fetch_node_first_creates_then_idempotent (maxN nid : Int)
    (numa : Topology) (a1 : Bool) (node : PNode) (numa1 : Topology)
    (hfirst : ppcnuma_fetch_node maxN a1 numa nid = Except.ok (node, numa1)) :
    (lookupNode numa.nodes nid = none → numa1.node_count = numa.node_count + 1) ∧
    ∀ a2 : Bool, ppcnuma_fetch_node maxN a2 numa1 nid = Except.ok (node, numa1) := by
  unfold ppcnuma_fetch_node at hfirst ⊢
  by_cases hguard : maxN < nid
  · rw [if_pos hguard] at hfirst
    exact Except.noConfusion hfirst
  · rw [if_neg hguard] at hfirst
    cases hl : lookupNode numa.nodes nid with
    | some n0 =>
      rw [hl] at hfirst
      injection hfirst with h
      injection h with h1 h2
      subst h1; subst h2
      refine ⟨fun hcontra => Option.noConfusion hcontra, fun a2 => ?_⟩
      rw [if_neg hguard, hl]
    | none =>
      rw [hl] at hfirst
      cases a1 with
      | false =>
        rw [if_pos rfl] at hfirst
        exact Except.noConfusion hfirst
      | true =>
        rw [if_neg (by decide : ¬ (true = false))] at hfirst
        injection hfirst with h
        injection h with h1 h2
        subst h1; subst h2
        refine ⟨fun _ => rfl, fun a2 => ?_⟩
        rw [if_neg hguard]
        simp [lookupNode]

/-- C4 witness: create node 7 on an empty topology, then refetch it
with either allocation-oracle value; the result is the identical node
and topology, and the first call incremented `node_count`. -/
theorem fetch_node_first_creates_then_idempotent_witness :
    ({ emptyTopology with
        nodes := [(7, { node_id := 7, n_cpus := 0, n_lmbs := 0, lmbs := [] })]
        node_count := 1
        node_min := 7
        node_max := 7 } : Topology).node_count = emptyTopology.node_count + 1 ∧
    ppcnuma_fetch_node 256 true
      { emptyTopology with
        nodes := [(7, { node_id := 7, n_cpus := 0, n_lmbs := 0, lmbs := [] })]
        node_count := 1
        node_min := 7
        node_max := 7 } 7 =
      Except.ok ({ node_id := 7, n_cpus := 0, n_lmbs := 0, lmbs := [] },
        { emptyTopology with
          nodes := [(7, { node_id := 7, n_cpus := 0, n_lmbs := 0, lmbs := [] })]
          node_count := 1
          node_min := 7
          node_max := 7 }) ∧
    ppcnuma_fetch_node 256 false
      { emptyTopology with
        nodes := [(7, { node_id := 7, n_cpus := 0, n_lmbs := 0, lmbs := [] })]
        node_count := 1
        node_min := 7
        node_max := 7 } 7 =
      Except.ok ({ node_id := 7, n_cpus := 0, n_lmbs := 0, lmbs := [] },
        { emptyTopology with
          nodes := [(7, { node_id := 7, n_cpus := 0, n_lmbs := 0, lmbs := [] })]
          node_count := 1
          node_min := 7
          node_max := 7 }) := by
  have h := fetch_node_first_creates_then_idempotent 256 7 emptyTopology true
    { node_id := 7, n_cpus := 0, n_lmbs := 0, lmbs := [] }
    { emptyTopology with
      nodes := [(7, { node_id := 7, n_cpus := 0, n_lmbs := 0, lmbs := [] })]
      node_count := 1
      node_min := 7
      node_max := 7 }
    (by rfl)
  exact ⟨h.1 rfl, h.2 true, h.2 false⟩

/-- C7 counterexample: loading the static description
`[{id:0, cpus:4, mem:8}, {id:2, cpus:2, mem:4}]` with every allocation
succeeding does not yield the claimed topology values — the conjunction
fails because `ppcnuma_get_config` never adds to the topology's
`cpu_count`, which stays `0` rather than `6`. -/
theorem get_config_static_description_claim_fails :
    ¬ (staticTwoNodeTopology.node_count = 2 ∧
       staticTwoNodeTopology.node_min = 0 ∧
       staticTwoNodeTopology.node_max = 2 ∧
       staticTwoNodeTopology.cpu_count = 6 ∧
       staticTwoNodeTopology.lmb_count = 12 ∧
       staticTwoNodeTopology.cpuless_lmb_count = 0) := by
  decide

/-- C7 amended: loading the static description
`[{id:0, cpus:4, mem:8}, {id:2, cpus:2, mem:4}]` (all allocations
succeeding) yields `node_count = 2`, `node_min = 0`, `node_max = 2`,
`lmb_count = 12`, `cpuless_lmb_count = 0`, and `cpu_count = 0`: the
static loader sets each node's own `n_cpus` but never updates the
topology-wide CPU total. -/
theorem get_config_static_description_eval :
    staticTwoNodeTopology.node_count = 2 ∧
    staticTwoNodeTopology.node_min = 0 ∧
    staticTwoNodeTopology.node_max = 2 ∧
    staticTwoNodeTopology.cpu_count = 0 ∧
    staticTwoNodeTopology.lmb_count = 12 ∧
    staticTwoNodeTopology.cpuless_lmb_count = 0 := by
  decide

/-- C1 counterexample: in test mode, acquiring topology from a static
description with zero node entries completes its loading path without
any intermediate error and returns success (`none`) on a topology with
zero populated nodes — it is not rejected with `EmptyTopology`.  (The
live-platform arguments are arbitrary concrete values; the test path
never consults them.) -/
theorem get_topology_test_mode_empty_config_succeeds :
    (ppcnuma_get_topology 256
        { available := true, max_node := 0, node_present := fun _ => false,
          node_cpus := fun _ => none, node_alloc_ok := fun _ => true }
        (some 2) true true (some []) (fun _ => true) (fun _ => true)
        (fun _ _ => true) initPState).2 = none ∧
    (ppcnuma_get_topology 256
        { available := true, max_node := 0, node_present := fun _ => false,
          node_cpus := fun _ => none, node_alloc_ok := fun _ => true }
        (some 2) true true (some []) (fun _ => true) (fun _ => true)
        (fun _ _ => true) initPState).1.numa.node_count = 0 ∧
    (ppcnuma_get_topology 256
        { available := true, max_node := 0, node_present := fun _ => false,
          node_cpus := fun _ => none, node_alloc_ok := fun _ => true }
        (some 2) true true (some []) (fun _ => true) (fun _ => true)
        (fun _ _ => true) initPState).2 ≠ some GetErr.EmptyTopology := by
  refine ⟨rfl, rfl, ?_⟩
  intro h
  exact Option.noConfusion h

/-- C1 amended: the empty-topology rejection happens only on the live
path.  In test mode `ppcnuma_get_topology` returns
`ppcnuma_get_config`'s result with no final validation, so loading a
description with zero entries succeeds with zero populated nodes;
on the live path a scan that succeeds with `node_count = 0` is
rejected with `EmptyTopology`. -/
theorem get_topology_empty_check_only_live_path (maxN : Int) (env : ScanEnv)
    (d : Nat) (assocOk : Bool) (nodeOk headOk : Nat → Bool)
    (lmbOk : Nat → Nat → Bool) (st : PState) (numa1 : Topology)
    (hav : env.available = true)
    (has : assocOk = true)
    (hscan : read_numa_topology maxN env { st.numa with min_common_depth := d } =
      (numa1, none))
    (hempty : numa1.node_count = 0) :
    (ppcnuma_get_topology maxN env (some d) assocOk true (some []) nodeOk headOk
      lmbOk st).2 = none ∧
    (ppcnuma_get_topology maxN env (some d) assocOk true (some []) nodeOk headOk
      lmbOk st).1.numa.node_count = st.numa.node_count ∧
    (ppcnuma_get_topology maxN env (some d) assocOk false (some []) nodeOk headOk
      lmbOk st).2 = some GetErr.EmptyTopology := by
  refine ⟨rfl, rfl, ?_⟩
  subst has
  simp only [ppcnuma_get_topology, hav, Bool.true_eq_false, if_false, reduceCtorEq]
  simp only [hscan, hempty]
  rfl

/-- C1 amended witness: capacity 256, a live platform with node 0
absent, an empty starting state.  Test mode with zero entries returns
success with zero nodes; the live path returns `EmptyTopology`. -/
theorem get_topology_empty_check_only_live_path_witness :
    (ppcnuma_get_topology 256
        { available := true, max_node := 0, node_present := fun _ => false,
          node_cpus := fun _ => none, node_alloc_ok := fun _ => true }
        (some 3) true true (some []) (fun _ => true) (fun _ => true)
        (fun _ _ => true) initPState).2 = none ∧
    (ppcnuma_get_topology 256
        { available := true, max_node := 0, node_present := fun _ => false,
          node_cpus := fun _ => none, node_alloc_ok := fun _ => true }
        (some 3) true true (some []) (fun _ => true) (fun _ => true)
        (fun _ _ => true) initPState).1.numa.node_count =
      initPState.numa.node_count ∧
    (ppcnuma_get_topology 256
        { available := true, max_node := 0, node_present := fun _ => false,
          node_cpus := fun _ => none, node_alloc_ok := fun _ => true }
        (some 3) true false (some []) (fun _ => true) (fun _ => true)
        (fun _ _ => true) initPState).2 = some GetErr.EmptyTopology :=
  get_topology_empty_check_only_live_path 256
    { available := true, max_node := 0, node_present := fun _ => false,
      node_cpus := fun _ => none, node_alloc_ok := fun _ => true }
    3 true (fun _ => true) (fun _ => true) (fun _ _ => true) initPState
    { emptyTopology with min_common_depth := 3 }
    rfl rfl (by rfl) rfl

/-! Characterisation of the `create_lmbs` per-block loop, shared by the
block-allocator theorems below. -/

theorem create_lmbs_loop_acc (oks : List Bool) :
    ∀ (d : Nat) (node : PNode) (lc cc : Nat) (acc : List Nat),
      (create_lmbs_loop oks d node lc cc acc).acc = acc ++ drawnVals d oks := by
  induction oks with
  | nil => intro d node lc cc acc; simp [create_lmbs_loop, drawnVals]
  | cons ok rest ih =>
    intro d node lc cc acc
    cases ok with
    | false =>
      simp only [create_lmbs_loop, drawnVals]
      exact ih _ _ _ _ _
    | true =>
      by_cases hc : 0 < node.n_cpus
      · simp only [create_lmbs_loop, drawnVals, if_pos hc]
        rw [ih]; simp
      · simp only [create_lmbs_loop, drawnVals, if_neg hc]
        rw [ih]; simp

theorem create_lmbs_loop_drc (oks : List Bool) :
    ∀ (d : Nat) (node : PNode) (lc cc : Nat) (acc : List Nat), d < U32 →
      (create_lmbs_loop oks d node lc cc acc).drc = (d + oks.length) % U32 := by
  induction oks with
  | nil =>
    intro d node lc cc acc hd
    simp [create_lmbs_loop, Nat.mod_eq_of_lt hd]
  | cons ok rest ih =>
    intro d node lc cc acc hd
    have hd1 : (d + 1) % U32 < U32 := Nat.mod_lt _ (by decide)
    have hmod : ((d + 1) % U32 + rest.length) % U32 = (d + (rest.length + 1)) % U32 := by
      rw [Nat.mod_add_mod]
      congr 1
      omega
    cases ok with
    | false =>
      simp only [create_lmbs_loop, List.length_cons]
      rw [ih _ _ _ _ _ hd1, hmod]
    | true =>
      by_cases hc : 0 < node.n_cpus
      · simp only [create_lmbs_loop, List.length_cons, if_pos hc]
        rw [ih _ _ _ _ _ hd1, hmod]
      · simp only [create_lmbs_loop, List.length_cons, if_neg hc]
        rw [ih _ _ _ _ _ hd1, hmod]

theorem create_lmbs_loop_node (oks : List Bool) :
    ∀ (d : Nat) (node : PNode) (lc cc : Nat) (acc : List Nat),
      (create_lmbs_loop oks d node lc cc acc).node.n_lmbs =
        node.n_lmbs + oks.count true ∧
      (create_lmbs_loop oks d node lc cc acc).node.n_cpus = node.n_cpus ∧
      (create_lmbs_loop oks d node lc cc acc).node.node_id = node.node_id := by
  induction oks with
  | nil => intro d node lc cc acc; simp [create_lmbs_loop]
  | cons ok rest ih =>
    intro d node lc cc acc
    cases ok with
    | false =>
      simp only [create_lmbs_loop, List.count_cons]
      have h := ih ((d + 1) % U32) node lc cc acc
      simp only [h.1, h.2.1, h.2.2]
      simp
    | true =>
      by_cases hc : 0 < node.n_cpus
      · simp only [create_lmbs_loop, List.count_cons, if_pos hc]
        have h := ih ((d + 1) % U32)
          { node with lmbs := d :: node.lmbs, n_lmbs := node.n_lmbs + 1 }
          (lc + 1) cc (acc ++ [d])
        simp only [h.1, h.2.1, h.2.2]
        refine ⟨by simp; omega, trivial, trivial⟩
      · simp only [create_lmbs_loop, List.count_cons, if_neg hc]
        have h := ih ((d + 1) % U32)
          { node with lmbs := d :: node.lmbs, n_lmbs := node.n_lmbs + 1 }
          lc (cc + 1) (acc ++ [d])
        simp only [h.1, h.2.1, h.2.2]
        refine ⟨by simp; omega, trivial, trivial⟩

theorem create_lmbs_loop_counts (oks : List Bool) :
    ∀ (d : Nat) (node : PNode) (lc cc : Nat) (acc : List Nat),
      (create_lmbs_loop oks d node lc cc acc).lmb_count =
        lc + (if 0 < node.n_cpus then oks.count true else 0) ∧
      (create_lmbs_loop oks d node lc cc acc).cpuless_lmb_count =
        cc + (if 0 < node.n_cpus then 0 else oks.count true) := by
  induction oks with
  | nil => intro d node lc cc acc; simp [create_lmbs_loop]
  | cons ok rest ih =>
    intro d node lc cc acc
    cases ok with
    | false =>
      simp only [create_lmbs_loop, List.count_cons]
      have h := ih ((d + 1) % U32) node lc cc acc
      simp only [h.1, h.2]
      by_cases hc : 0 < node.n_cpus <;> simp [hc]
    | true =>
      by_cases hc : 0 < node.n_cpus
      · simp only [create_lmbs_loop, List.count_cons, if_pos hc]
        have h := ih ((d + 1) % U32)
          { node with lmbs := d :: node.lmbs, n_lmbs := node.n_lmbs + 1 }
          (lc + 1) cc (acc ++ [d])
        simp only [h.1, h.2]
        constructor <;> simp [hc] <;> omega
      · simp only [create_lmbs_loop, List.count_cons, if_neg hc]
        have h := ih ((d + 1) % U32)
          { node with lmbs := d :: node.lmbs, n_lmbs := node.n_lmbs + 1 }
          lc (cc + 1) (acc ++ [d])
        simp only [h.1, h.2]
        constructor <;> simp [hc] <;> omega

/-! Arithmetic facts about the drawn DRC index values. -/

theorem drawnVals_length (oks : List Bool) :
    ∀ d : Nat, (drawnVals d oks).length = oks.count true := by
  induction oks with
  | nil => intro d; simp [drawnVals]
  | cons ok rest ih =>
    intro d
    cases ok with
    | false => simp [drawnVals, List.count_cons, ih]
    | true => simp [drawnVals, List.count_cons, ih]

theorem drawnVals_bounds (oks : List Bool) :
    ∀ d : Nat, d + oks.length ≤ U32 →
      ∀ x ∈ drawnVals d oks, d ≤ x ∧ x < d + oks.length := by
  induction oks with
  | nil => intro d _ x hx; simp [drawnVals] at hx
  | cons ok rest ih =>
    intro d hbound x hx
    simp only [List.length_cons] at hbound ⊢
    by_cases hwrap : d + 1 < U32
    · have hd1 : (d + 1) % U32 = d + 1 := Nat.mod_eq_of_lt hwrap
      have hb1 : (d + 1) + rest.length ≤ U32 := by omega
      cases ok with
      | true =>
        simp only [drawnVals, hd1, List.mem_cons] at hx
        rcases hx with rfl | hx
        · omega
        · have := ih (d + 1) hb1 x hx
          omega
      | false =>
        simp only [drawnVals, hd1] at hx
        have := ih (d + 1) hb1 x hx
        omega
    · have hrest : rest = [] := by
        have : rest.length = 0 := by omega
        exact List.length_eq_zero.mp this
      subst hrest
      cases ok with
      | true =>
        simp only [drawnVals, List.mem_cons] at hx
        rcases hx with rfl | hx
        · omega
        · simp [drawnVals] at hx
      | false => simp [drawnVals] at hx

theorem drawnVals_pairwise (oks : List Bool) :
    ∀ d : Nat, d + oks.length ≤ U32 → (drawnVals d oks).Pairwise (· < ·) := by
  induction oks with
  | nil => intro d _; simp [drawnVals]
  | cons ok rest ih =>
    intro d hbound
    simp only [List.length_cons] at hbound
    by_cases hwrap : d + 1 < U32
    · have hd1 : (d + 1) % U32 = d + 1 := Nat.mod_eq_of_lt hwrap
      have hb1 : (d + 1) + rest.length ≤ U32 := by omega
      cases ok with
      | false =>
        simp only [drawnVals, hd1]
        exact ih (d + 1) hb1
      | true =>
        simp only [drawnVals, hd1]
        refine List.Pairwise.cons ?_ (ih (d + 1) hb1)
        intro x hx
        have := drawnVals_bounds rest (d + 1) hb1 x hx
        omega
    · have hrest : rest = [] := by
        have : rest.length = 0 := by omega
        exact List.length_eq_zero.mp this
      subst hrest
      cases ok with
      | false => simp [drawnVals]
      | true => simp [drawnVals]

theorem drawnVals_mem_iff (oks : List Bool) :
    ∀ (d j : Nat), d + oks.length ≤ U32 → j < oks.length →
      ((d + j) ∈ drawnVals d oks ↔ oks.get? j = some true) := by
  induction oks with
  | nil => intro d j _ hj; simp at hj
  | cons ok rest ih =>
    intro d j hbound hj
    simp only [List.length_cons] at hbound hj
    by_cases hwrap : d + 1 < U32
    · have hd1 : (d + 1) % U32 = d + 1 := Nat.mod_eq_of_lt hwrap
      have hb1 : (d + 1) + rest.length ≤ U32 := by omega
      cases j with
      | zero =>
        cases ok with
        | true => simp [drawnVals]
        | false =>
          simp only [drawnVals, hd1, Nat.add_zero, List.get?_cons_zero]
          constructor
          · intro hx
            have := drawnVals_bounds rest (d + 1) hb1 _ hx
            omega
          · intro hcontra
            exact absurd hcontra (by simp)
      | succ j =>
        have hj1 : j < rest.length := by omega
        have heq : d + (j + 1) = (d + 1) + j := by omega
        cases ok with
        | true =>
          simp only [drawnVals, hd1, List.mem_cons, List.get?_cons_succ]
          rw [heq, ih (d + 1) j hb1 hj1]
          have hne : ¬ ((d + 1) + j = d) := by omega
          tauto
        | false =>
          simp only [drawnVals, hd1, List.get?_cons_succ]
          rw [heq, ih (d + 1) j hb1 hj1]
    · have hrest : rest = [] := by
        have : rest.length = 0 := by omega
        exact List.length_eq_zero.mp this
      subst hrest
      cases j with
      | zero =>
        cases ok with
        | true => simp [drawnVals]
        | false => simp [drawnVals]
      | succ j => omega

theorem drawnVals_replicate_get (n : Nat) :
    ∀ (d j : Nat), d < U32 → j < n →
      (drawnVals d (List.replicate n true)).get? j = some ((d + j) % U32) := by
  induction n with
  | zero => intro d j _ hj; omega
  | succ n ih =>
    intro d j hd hj
    rw [List.replicate_succ]
    cases j with
    | zero =>
      simp only [drawnVals, List.get?_cons_zero]
      rw [Nat.add_zero, Nat.mod_eq_of_lt hd]
    | succ j =>
      simp only [drawnVals, List.get?_cons_succ]
      rw [ih ((d + 1) % U32) j (Nat.mod_lt _ (by decide)) (by omega)]
      congr 1
      rw [Nat.mod_add_mod]
      congr 1
      omega

/-- C9: with the list-head allocation succeeding, a `create_lmbs` call
with requested count `k = oks.length` advances the process-wide DRC
counter by exactly `k` (mod 2^32) regardless of which block creations
fail — the counter is incremented (`drc_index++`) before the per-block
creation result is checked.  The call's block list receives exactly the
values drawn at the successful iterations, so (absent wraparound) the
value drawn at a failed iteration is consumed but assigned to no block:
a gap in the handle sequence, not a reuse. -/
theorem create_lmbs_counter_advances_by_count (sort : Nat) (node : PNode)
    (oks : List Bool) (d lc cc : Nat) (hd : d < U32) :
    (create_lmbs sort node true oks d lc cc).drc = (d + oks.length) % U32 ∧
    (create_lmbs sort node true oks d lc cc).lmb_list =
      some { sort := sort, lmbs := drawnVals d oks } ∧
    (d + oks.length ≤ U32 → ∀ j, j < oks.length →
      ((d + j) ∈ drawnVals d oks ↔ oks.get? j = some true)) := by
  refine ⟨?_, ?_, fun hb j hj => drawnVals_mem_iff oks d j hb hj⟩
  · simp only [create_lmbs, if_neg (by decide : ¬ (true = false))]
    exact create_lmbs_loop_drc oks d node lc cc [] hd
  · simp only [create_lmbs, if_neg (by decide : ¬ (true = false))]
    rw [create_lmbs_loop_acc oks d node lc cc []]
    simp

/-- C9 witness: three requested blocks starting at the counter seed,
the middle creation failing: the counter advances by 3, the two created
blocks get the first and third drawn values, and the middle drawn value
`DRC_INIT + 1` is consumed but assigned to no block. -/
theorem create_lmbs_counter_advances_by_count_witness :
    (create_lmbs 0 { node_id := 0, n_cpus := 0, n_lmbs := 0, lmbs := [] } true
      [true, false, true] DRC_INIT 0 0).drc = (DRC_INIT + 3) % U32 ∧
    (create_lmbs 0 { node_id := 0, n_cpus := 0, n_lmbs := 0, lmbs := [] } true
      [true, false, true] DRC_INIT 0 0).lmb_list =
      some { sort := 0, lmbs := [DRC_INIT, DRC_INIT + 2] } ∧
    ¬ ((DRC_INIT + 1) ∈ drawnVals DRC_INIT [true, false, true]) := by
  have h := create_lmbs_counter_advances_by_count 0
    { node_id := 0, n_cpus := 0, n_lmbs := 0, lmbs := [] }
    [true, false, true] DRC_INIT 0 0 (by decide)
  refine ⟨by rw [h.1]; decide, by rw [h.2.1]; decide, ?_⟩
  intro hmem
  have := (h.2.2 (by decide) 1 (by decide)).mp hmem
  exact absurd this (by decide)

/-- Case analysis of a successful `ppcnuma_fetch_node`: either the node
already existed (no mutation at all), or it was freshly stored with the
min/max/count updates of the source. -/
theorem fetch_node_spec (maxN : Int) (a : Bool) (numa : Topology) (nid : Int)
    (node : PNode) (numa1 : Topology)
    (h : ppcnuma_fetch_node maxN a numa nid = Except.ok (node, numa1)) :
    (lookupNode numa.nodes nid = some node ∧ numa1 = numa) ∨
    (lookupNode numa.nodes nid = none ∧
      node = { node_id := nid, n_cpus := 0, n_lmbs := 0, lmbs := [] } ∧
      numa1 = { numa with
        nodes := (nid, node) :: numa.nodes
        node_count := numa.node_count + 1
        node_min :=
          if numa.node_count = 0 ∨ nid < numa.node_min then nid else numa.node_min
        node_max :=
          if numa.node_max < nid then nid else numa.node_max }) := by
  unfold ppcnuma_fetch_node at h
  by_cases hguard : maxN < nid
  · rw [if_pos hguard] at h
    exact Except.noConfusion h
  · rw [if_neg hguard] at h
    cases hl : lookupNode numa.nodes nid with
    | some n0 =>
      rw [hl] at h
      injection h with hp
      injection hp with h1 h2
      subst h1; subst h2
      exact Or.inl ⟨rfl, rfl⟩
    | none =>
      rw [hl] at h
      cases a with
      | false =>
        rw [if_pos rfl] at h
        exact Except.noConfusion h
      | true =>
        rw [if_neg (by decide : ¬ (true = false))] at h
        injection h with hp
        injection hp with h1 h2
        subst h1; subst h2
        exact Or.inr ⟨rfl, rfl, rfl⟩

/-- Replacing the node stored at `nid` changes the `n_lmbs` sum by the
difference between the new and old record. -/
theorem sum_replaceNode (nodes : List (Int × PNode)) :
    ∀ (nid : Int) (v n : PNode), lookupNode nodes nid = some v →
      ((replaceNode nodes nid n).map (fun p => p.2.n_lmbs)).sum + v.n_lmbs =
      (nodes.map (fun p => p.2.n_lmbs)).sum + n.n_lmbs := by
  induction nodes with
  | nil => intro nid v n h; simp [lookupNode] at h
  | cons kv rest ih =>
    intro nid v n h
    obtain ⟨k, w⟩ := kv
    by_cases hk : k = nid
    · simp only [lookupNode, if_pos hk] at h
      injection h with hw
      subst hw
      simp only [replaceNode, if_pos hk, List.map_cons, List.sum_cons]
      omega
    · simp only [lookupNode, if_neg hk] at h
      simp only [replaceNode, if_neg hk, List.map_cons, List.sum_cons]
      have := ih nid v n h
      omega

/-- `create_lmbs` when the list-head `zalloc` fails: nothing changes
and no list is produced. -/
theorem create_lmbs_headFail (sort : Nat) (node : PNode) (oks : List Bool)
    (d lc cc : Nat) :
    create_lmbs sort node false oks d lc cc =
      { node := node, drc := d, lmb_count := lc, cpuless_lmb_count := cc,
        lmb_list := none } := rfl

/-- `create_lmbs` when the list-head `zalloc` succeeds: the per-block
loop runs. -/
theorem create_lmbs_headOk (sort : Nat) (node : PNode) (oks : List Bool)
    (d lc cc : Nat) :
    create_lmbs sort node true oks d lc cc =
      { node := (create_lmbs_loop oks d node lc cc []).node
        drc := (create_lmbs_loop oks d node lc cc []).drc
        lmb_count := (create_lmbs_loop oks d node lc cc []).lmb_count
        cpuless_lmb_count := (create_lmbs_loop oks d node lc cc []).cpuless_lmb_count
        lmb_list := some { sort := sort, lmbs := (create_lmbs_loop oks d node lc cc []).acc } } := rfl

/-- A `create_lmbs` call preserves the block-count balance: every
created block adds one to the owning node's `n_lmbs` and one to exactly
one of the two global totals. -/
theorem create_lmbs_st_sum (sort : Nat) (nid : Int) (headOk : Bool)
    (oks : List Bool) (st : PState)
    (h : sumNLmbs st.numa = st.numa.lmb_count + st.numa.cpuless_lmb_count) :
    sumNLmbs (create_lmbs_st sort nid headOk oks st).numa =
      (create_lmbs_st sort nid headOk oks st).numa.lmb_count +
      (create_lmbs_st sort nid headOk oks st).numa.cpuless_lmb_count := by
  unfold create_lmbs_st
  cases hlk : lookupNode st.numa.nodes nid with
  | none => exact h
  | some node =>
    cases headOk with
    | false =>
      dsimp only
      rw [create_lmbs_headFail]
      dsimp only
      simp only [sumNLmbs] at h ⊢
      have hs := sum_replaceNode st.numa.nodes nid node node hlk
      omega
    | true =>
      dsimp only
      rw [create_lmbs_headOk]
      dsimp only
      simp only [sumNLmbs] at h ⊢
      have hnode := (create_lmbs_loop_node oks st.drc node st.numa.lmb_count
        st.numa.cpuless_lmb_count []).1
      have hcnt := create_lmbs_loop_counts oks st.drc node st.numa.lmb_count
        st.numa.cpuless_lmb_count []
      have hs := sum_replaceNode st.numa.nodes nid node
        (create_lmbs_loop oks st.drc node st.numa.lmb_count
          st.numa.cpuless_lmb_count []).node hlk
      by_cases hc : 0 < node.n_cpus
      · simp only [if_pos hc] at hcnt
        omega
      · simp only [if_neg hc] at hcnt
        omega

/-- C6: after any sequence of Node Registry and Block Allocator calls
(including fresh topology builds) starting from process start, the sum
of `n_lmbs` over all stored nodes equals
`lmb_count + cpuless_lmb_count`: each successfully created block
increments the owning node's `n_lmbs` and exactly one of the two
topology totals, chosen by whether `node->n_cpus` is positive at
allocation time. -/
theorem lmb_sum_invariant (maxN : Int) (ops : List ProcOp) :
    sumNLmbs (runProc maxN ops initPState).numa =
      (runProc maxN ops initPState).numa.lmb_count +
      (runProc maxN ops initPState).numa.cpuless_lmb_count := by
  have main : ∀ (ops2 : List ProcOp) (st : PState),
      sumNLmbs st.numa = st.numa.lmb_count + st.numa.cpuless_lmb_count →
      sumNLmbs (runProc maxN ops2 st).numa =
        (runProc maxN ops2 st).numa.lmb_count +
        (runProc maxN ops2 st).numa.cpuless_lmb_count := by
    intro ops2
    induction ops2 with
    | nil => intro st h; exact h
    | cons op rest ih =>
      intro st h
      refine ih _ ?_
      cases op with
      | fetch nid a =>
        simp only [applyOp]
        cases hf : ppcnuma_fetch_node maxN a st.numa nid with
        | error e => exact h
        | ok p =>
          obtain ⟨node, numa1⟩ := p
          rcases fetch_node_spec maxN a st.numa nid node numa1 hf with
            ⟨_, rfl⟩ | ⟨_, hn, rfl⟩
          · exact h
          · subst hn
            simp only [sumNLmbs, List.map_cons, List.sum_cons] at h ⊢
            simpa using h
      | alloc sort nid headOk oks =>
        exact create_lmbs_st_sum sort nid headOk oks st h
      | newTopology =>
        simp [applyOp, sumNLmbs, emptyTopology]
  exact main ops initPState (by simp [initPState, emptyTopology, sumNLmbs])

/-- The registry bounds invariant: ids are non-negative; an empty
registry is all-zero; a populated registry has `node_min`/`node_max`
stored and bounding every stored id. -/
def MinMaxInv (t : Topology) : Prop :=
  (∀ k ∈ nodeIds t, 0 ≤ k) ∧
  (t.node_count = 0 → t.nodes = [] ∧ t.node_min = 0 ∧ t.node_max = 0) ∧
  (t.node_count ≠ 0 →
    t.node_min ∈ nodeIds t ∧ t.node_max ∈ nodeIds t ∧
    ∀ k ∈ nodeIds t, t.node_min ≤ k ∧ k ≤ t.node_max)

/-- One fetch-or-create with a non-negative id preserves the registry
bounds invariant. -/
theorem fetch_preserves_minmax (maxN : Int) (a : Bool) (st : PState) (nid : Int)
    (hnid : 0 ≤ nid) (h : MinMaxInv st.numa) :
    MinMaxInv (applyOp maxN st (ProcOp.fetch nid a)).numa := by
  simp only [applyOp]
  cases hf : ppcnuma_fetch_node maxN a st.numa nid with
  | error e => exact h
  | ok p =>
    obtain ⟨node, numa1⟩ := p
    rcases fetch_node_spec maxN a st.numa nid node numa1 hf with
      ⟨_, rfl⟩ | ⟨_, hn, rfl⟩
    · exact h
    · dsimp only
      obtain ⟨hpos, hzero, hsome⟩ := h
      have hids : nodeIds
          ({ st.numa with
             nodes := (nid, node) :: st.numa.nodes
             node_count := st.numa.node_count + 1
             node_min :=
               if st.numa.node_count = 0 ∨ nid < st.numa.node_min then nid
               else st.numa.node_min
             node_max :=
               if st.numa.node_max < nid then nid else st.numa.node_max } : Topology) =
          nid :: nodeIds st.numa := by
        simp [nodeIds]
      refine ⟨?_, ?_, ?_⟩
      · intro k hk
        rw [hids] at hk
        rcases List.mem_cons.mp hk with rfl | hk2
        · exact hnid
        · exact hpos k hk2
      · intro hc
        exact absurd hc (Nat.succ_ne_zero _)
      · intro _
        rw [hids]
        dsimp only
        by_cases h0 : st.numa.node_count = 0
        · obtain ⟨hnil, hmin0, hmax0⟩ := hzero h0
          have hids0 : nodeIds st.numa = [] := by simp [nodeIds, hnil]
          have hminval :
              (if st.numa.node_count = 0 ∨ nid < st.numa.node_min then nid
               else st.numa.node_min) = nid := if_pos (Or.inl h0)
          have hmaxval :
              (if st.numa.node_max < nid then nid else st.numa.node_max) = nid := by
            rw [hmax0]
            by_cases hlt : (0 : Int) < nid
            · exact if_pos hlt
            · rw [if_neg hlt]; omega
          simp only [hminval, hmaxval, hids0]
          refine ⟨List.mem_cons_self _ _, List.mem_cons_self _ _, ?_⟩
          intro k hk
          rcases List.mem_cons.mp hk with rfl | hk2
          · omega
          · simp at hk2
        · obtain ⟨hminmem, hmaxmem, hbnd⟩ := hsome h0
          constructor
          · by_cases hlt : nid < st.numa.node_min
            · rw [if_pos (Or.inr hlt)]
              exact List.mem_cons_self _ _
            · rw [if_neg (by tauto)]
              exact List.mem_cons_of_mem _ hminmem
          constructor
          · by_cases hgt : st.numa.node_max < nid
            · rw [if_pos hgt]
              exact List.mem_cons_self _ _
            · rw [if_neg hgt]
              exact List.mem_cons_of_mem _ hmaxmem
          · intro k hk
            rcases List.mem_cons.mp hk with rfl | hk2
            · constructor
              · by_cases hlt : k < st.numa.node_min
                · rw [if_pos (Or.inr hlt)]
                · rw [if_neg (by tauto)]; omega
              · by_cases hgt : st.numa.node_max < k
                · rw [if_pos hgt]
                · rw [if_neg hgt]; omega
            · have hb := hbnd k hk2
              constructor
              · by_cases hlt : nid < st.numa.node_min
                · rw [if_pos (Or.inr hlt)]; omega
                · rw [if_neg (by tauto)]; omega
              · by_cases hgt : st.numa.node_max < nid
                · rw [if_pos hgt]; omega
                · rw [if_neg hgt]; omega

/-- A sequence of fetch-or-create calls with non-negative ids preserves
the registry bounds invariant. -/
theorem runProc_minmax (maxN : Int) (l : List (Int × Bool)) :
    ∀ st : PState, (∀ p ∈ l, 0 ≤ p.1) → MinMaxInv st.numa →
      MinMaxInv (runProc maxN (fetchOps l) st).numa := by
  induction l with
  | nil => intro st _ h; exact h
  | cons p rest ih =>
    intro st hpos h
    simp only [fetchOps, List.map_cons, runProc]
    exact ih _ (fun q hq => hpos q (List.mem_cons_of_mem _ hq))
      (fetch_preserves_minmax maxN p.2 st p.1 (hpos p (List.mem_cons_self _ _)) h)

/-- C8: after any sequence of node-creation calls with non-negative ids
on a topology that started empty, `node_min` equals the minimum and
`node_max` the maximum of the stored node ids: both are themselves
stored ids, and they bound every stored id. -/
theorem node_min_max_track_created_ids (maxN : Int) (l : List (Int × Bool))
    (hpos : ∀ p ∈ l, 0 ≤ p.1)
    (hne : (runProc maxN (fetchOps l) initPState).numa.node_count ≠ 0) :
    (runProc maxN (fetchOps l) initPState).numa.node_min ∈
      nodeIds (runProc maxN (fetchOps l) initPState).numa ∧
    (runProc maxN (fetchOps l) initPState).numa.node_max ∈
      nodeIds (runProc maxN (fetchOps l) initPState).numa ∧
    ∀ k ∈ nodeIds (runProc maxN (fetchOps l) initPState).numa,
      (runProc maxN (fetchOps l) initPState).numa.node_min ≤ k ∧
      k ≤ (runProc maxN (fetchOps l) initPState).numa.node_max := by
  have h := runProc_minmax maxN l initPState hpos
    (by
      refine ⟨?_, fun _ => ⟨rfl, rfl, rfl⟩, fun hc => absurd rfl hc⟩
      intro k hk
      simp [initPState, emptyTopology, nodeIds] at hk)
  exact h.2.2 hne

/-- C8 witness: creating nodes 5, 2, 7 in that order on an empty
topology leaves `node_min` and `node_max` stored and bounding the
stored ids (in particular they bound the stored id 5). -/
theorem node_min_max_track_created_ids_witness :
    (runProc 256 (fetchOps [(5, true), (2, true), (7, true)]) initPState).numa.node_min ∈
      nodeIds (runProc 256 (fetchOps [(5, true), (2, true), (7, true)]) initPState).numa ∧
    (runProc 256 (fetchOps [(5, true), (2, true), (7, true)]) initPState).numa.node_max ∈
      nodeIds (runProc 256 (fetchOps [(5, true), (2, true), (7, true)]) initPState).numa ∧
    ((runProc 256 (fetchOps [(5, true), (2, true), (7, true)]) initPState).numa.node_min ≤ 5 ∧
      (5 : Int) ≤ (runProc 256 (fetchOps [(5, true), (2, true), (7, true)]) initPState).numa.node_max) := by
  have h := node_min_max_track_created_ids 256 [(5, true), (2, true), (7, true)]
    (by decide) (by decide)
  exact ⟨h.1, h.2.1, h.2.2 5 (by decide)⟩

/-- C2: when a live discovery run fails inside its scan loop (a node
allocation failure reported as out-of-memory, or a failed CPU-affinity
query), every node present in the returned topology has `n_cpus = 0`
and the topology's CPU total is `0`, while the node set is not rolled
back: the stored node ids, `node_count`, `node_min`, `node_max` and the
per-node block state are exactly those of the scan state at the moment
of failure.  Only CPU accounting is cleared before the failure is
propagated. -/
theorem read_numa_topology_rollback_spec (maxN : Int) (env : ScanEnv)
    (numa0 numa1 : Topology) (e : ScanErr)
    (h : read_numa_topology maxN env numa0 = (numa1, some e))
    (he : e = ScanErr.OutOfMemory ∨ e = ScanErr.CpuQueryFailed) :
    (∀ p ∈ numa1.nodes, p.2.n_cpus = 0) ∧
    numa1.cpu_count = 0 ∧
    nodeIds numa1 =
      nodeIds (scanLoop maxN env (nodeIdRange env.max_node) numa0).1 ∧
    numa1.node_count =
      (scanLoop maxN env (nodeIdRange env.max_node) numa0).1.node_count ∧
    numa1.node_min =
      (scanLoop maxN env (nodeIdRange env.max_node) numa0).1.node_min ∧
    numa1.node_max =
      (scanLoop maxN env (nodeIdRange env.max_node) numa0).1.node_max ∧
    numa1.nodes.map (fun p => (p.1, p.2.n_lmbs, p.2.lmbs)) =
      (scanLoop maxN env (nodeIdRange env.max_node) numa0).1.nodes.map
        (fun p => (p.1, p.2.n_lmbs, p.2.lmbs)) := by
  unfold read_numa_topology at h
  by_cases hav : env.available = false
  · rw [if_pos hav] at h
    injection h with h1 h2
    injection h2 with h3
    subst h3
    rcases he with h4 | h4 <;> exact ScanErr.noConfusion h4
  · rw [if_neg hav] at h
    by_cases hmax : maxN ≤ env.max_node
    · rw [if_pos hmax] at h
      injection h with h1 h2
      injection h2 with h3
      subst h3
      rcases he with h4 | h4 <;> exact ScanErr.noConfusion h4
    · rw [if_neg hmax] at h
      rcases hs : scanLoop maxN env (nodeIdRange env.max_node) numa0 with ⟨mid, rc⟩
      rw [hs] at h
      dsimp only
      cases rc with
      | none =>
        injection h with h1 h2
        exact Option.noConfusion h2
      | some e2 =>
        injection h with h1 h2
        subst h1
        refine ⟨?_, rfl, ?_, rfl, rfl, rfl, ?_⟩
        · intro p hp
          simp only [rollbackCpus, List.mem_map] at hp
          obtain ⟨q, _, rfl⟩ := hp
          rfl
        · simp [nodeIds, rollbackCpus, List.map_map, Function.comp]
        · simp [rollbackCpus, List.map_map, Function.comp]

/-- C2 witness: node 0 is created with 2 CPUs, then node 1's allocation
fails; the failure leaves node 0 present but with `n_cpus = 0`, the CPU
total reset to `0`, and the node bookkeeping of the failure point. -/
theorem read_numa_topology_rollback_spec_witness :
    (∀ p ∈ (read_numa_topology 256
        { available := true, max_node := 1, node_present := fun _ => true,
          node_cpus := fun _ => some [true, true],
          node_alloc_ok := fun nid => nid == 0 }
        emptyTopology).1.nodes, p.2.n_cpus = 0) ∧
    (read_numa_topology 256
        { available := true, max_node := 1, node_present := fun _ => true,
          node_cpus := fun _ => some [true, true],
          node_alloc_ok := fun nid => nid == 0 }
        emptyTopology).1.cpu_count = 0 ∧
    nodeIds (read_numa_topology 256
        { available := true, max_node := 1, node_present := fun _ => true,
          node_cpus := fun _ => some [true, true],
          node_alloc_ok := fun nid => nid == 0 }
        emptyTopology).1 =
      nodeIds (scanLoop 256
        { available := true, max_node := 1, node_present := fun _ => true,
          node_cpus := fun _ => some [true, true],
          node_alloc_ok := fun nid => nid == 0 }
        (nodeIdRange (1 : Int)) emptyTopology).1 ∧
    (read_numa_topology 256
        { available := true, max_node := 1, node_present := fun _ => true,
          node_cpus := fun _ => some [true, true],
          node_alloc_ok := fun nid => nid == 0 }
        emptyTopology).1.node_count =
      (scanLoop 256
        { available := true, max_node := 1, node_present := fun _ => true,
          node_cpus := fun _ => some [true, true],
          node_alloc_ok := fun nid => nid == 0 }
        (nodeIdRange (1 : Int)) emptyTopology).1.node_count ∧
    (read_numa_topology 256
        { available := true, max_node := 1, node_present := fun _ => true,
          node_cpus := fun _ => some [true, true],
          node_alloc_ok := fun nid => nid == 0 }
        emptyTopology).1.node_min =
      (scanLoop 256
        { available := true, max_node := 1, node_present := fun _ => true,
          node_cpus := fun _ => some [true, true],
          node_alloc_ok := fun nid => nid == 0 }
        (nodeIdRange (1 : Int)) emptyTopology).1.node_min ∧
    (read_numa_topology 256
        { available := true, max_node := 1, node_present := fun _ => true,
          node_cpus := fun _ => some [true, true],
          node_alloc_ok := fun nid => nid == 0 }
        emptyTopology).1.node_max =
      (scanLoop 256
        { available := true, max_node := 1, node_present := fun _ => true,
          node_cpus := fun _ => some [true, true],
          node_alloc_ok := fun nid => nid == 0 }
        (nodeIdRange (1 : Int)) emptyTopology).1.node_max ∧
    (read_numa_topology 256
        { available := true, max_node := 1, node_present := fun _ => true,
          node_cpus := fun _ => some [true, true],
          node_alloc_ok := fun nid => nid == 0 }
        emptyTopology).1.nodes.map (fun p => (p.1, p.2.n_lmbs, p.2.lmbs)) =
      (scanLoop 256
        { available := true, max_node := 1, node_present := fun _ => true,
          node_cpus := fun _ => some [true, true],
          node_alloc_ok := fun nid => nid == 0 }
        (nodeIdRange (1 : Int)) emptyTopology).1.nodes.map
        (fun p => (p.1, p.2.n_lmbs, p.2.lmbs)) :=
  read_numa_topology_rollback_spec 256
    { available := true, max_node := 1, node_present := fun _ => true,
      node_cpus := fun _ => some [true, true],
      node_alloc_ok := fun nid => nid == 0 }
    emptyTopology
    (read_numa_topology 256
      { available := true, max_node := 1, node_present := fun _ => true,
        node_cpus := fun _ => some [true, true],
        node_alloc_ok := fun nid => nid == 0 }
      emptyTopology).1
    ScanErr.OutOfMemory
    (by rfl)
    (Or.inl rfl)

/-- `drawCount` of a tail never exceeds that of the whole list. -/
theorem drawCount_rest_le (op : ProcOp) (rest : List ProcOp) :
    drawCount rest ≤ drawCount (op :: rest) := by
  cases op with
  | fetch nid a => simp [drawCount]
  | newTopology => simp [drawCount]
  | alloc sort nid headOk oks =>
    cases headOk with
    | false => simp [drawCount]
    | true => simp [drawCount]

/-- `drawCount` of an allocator call with a live list head. -/
theorem drawCount_alloc_cons (sort : Nat) (nid : Int) (oks : List Bool)
    (rest : List ProcOp) :
    drawCount (ProcOp.alloc sort nid true oks :: rest) =
      oks.length + drawCount rest := rfl

/-- The ghost trace after an allocator call with a live list head on an
existing node: the drawn values of the loop are appended. -/
theorem create_lmbs_st_trace (sort : Nat) (nid : Int) (oks : List Bool)
    (st : PState) (node : PNode)
    (hlk : lookupNode st.numa.nodes nid = some node) :
    (create_lmbs_st sort nid true oks st).trace =
      st.trace ++ drawnVals st.drc oks := by
  simp only [create_lmbs_st, hlk]
  rw [create_lmbs_headOk]
  dsimp only [assignedOf]
  rw [create_lmbs_loop_acc]
  simp

/-- How one call changes the counter and the ghost trace: everything
except an allocator call with a live list head and an existing target
node leaves both untouched; such an allocator call runs the per-block
loop from the current counter. -/
theorem applyOp_drc_trace (maxN : Int) (st : PState) (op : ProcOp) :
    ((applyOp maxN st op).drc = st.drc ∧ (applyOp maxN st op).trace = st.trace) ∨
    (∃ sort nid oks node,
      op = ProcOp.alloc sort nid true oks ∧
      lookupNode st.numa.nodes nid = some node ∧
      (applyOp maxN st op).drc =
        (create_lmbs_loop oks st.drc node st.numa.lmb_count
          st.numa.cpuless_lmb_count []).drc ∧
      (applyOp maxN st op).trace = st.trace ++ drawnVals st.drc oks) := by
  cases op with
  | fetch nid a =>
    left
    simp only [applyOp]
    cases hf : ppcnuma_fetch_node maxN a st.numa nid with
    | error e => exact ⟨rfl, rfl⟩
    | ok p => exact ⟨rfl, rfl⟩
  | newTopology => exact Or.inl ⟨rfl, rfl⟩
  | alloc sort nid headOk oks =>
    simp only [applyOp, create_lmbs_st]
    cases hlk : lookupNode st.numa.nodes nid with
    | none => exact Or.inl ⟨rfl, rfl⟩
    | some node =>
      cases headOk with
      | false =>
        left
        dsimp only
        rw [create_lmbs_headFail]
        exact ⟨rfl, by simp [assignedOf]⟩
      | true =>
        right
        refine ⟨sort, nid, oks, node, rfl, hlk, ?_, ?_⟩
        · dsimp only
          rw [create_lmbs_headOk]
        · dsimp only
          rw [create_lmbs_headOk]
          dsimp only [assignedOf]
          rw [create_lmbs_loop_acc]
          simp

/-- Trace invariant along a call sequence: if the counter sits at
`seed + n` (without having wrapped), all traced values are below it,
and the whole remaining draw budget fits under `2^32`, then after the
calls the trace is still strictly increasing, some `m ≤ drawCount ops`
values were drawn, and the bounds are maintained. -/
theorem runProc_trace_inv (maxN : Int) (ops : List ProcOp) :
    ∀ (n : Nat) (st : PState),
      st.drc = (DRC_INIT + n) % U32 →
      (∀ x ∈ st.trace, x < DRC_INIT + n) →
      st.trace.Pairwise (· < ·) →
      DRC_INIT + n + drawCount ops ≤ U32 →
      ∃ m, m ≤ drawCount ops ∧
        (runProc maxN ops st).drc = (DRC_INIT + (n + m)) % U32 ∧
        (∀ x ∈ (runProc maxN ops st).trace, x < DRC_INIT + (n + m)) ∧
        (runProc maxN ops st).trace.Pairwise (· < ·) := by
  induction ops with
  | nil =>
    intro n st h1 h2 h3 _
    exact ⟨0, Nat.zero_le _, by simpa using h1, by simpa using h2, h3⟩
  | cons op rest ih =>
    intro n st h1 h2 h3 hb
    simp only [runProc]
    rcases applyOp_drc_trace maxN st op with
      ⟨hdrc, htr⟩ | ⟨sort, nid, oks, node, hop, hlk, hdrc, htr⟩
    · have hbr : DRC_INIT + n + drawCount rest ≤ U32 :=
        le_trans (by have := drawCount_rest_le op rest; omega) hb
      obtain ⟨m, hm, hx1, hx2, hx3⟩ := ih n (applyOp maxN st op)
        (by rw [hdrc, h1]) (by rw [htr]; exact h2) (by rw [htr]; exact h3) hbr
      exact ⟨m, le_trans hm (drawCount_rest_le op rest), hx1, hx2, hx3⟩
    · subst hop
      rw [drawCount_alloc_cons] at hb
      by_cases hlt : DRC_INIT + n < U32
      · have hdval : st.drc = DRC_INIT + n := by
          rw [h1, Nat.mod_eq_of_lt hlt]
        have hdlt : st.drc < U32 := by omega
        have hkb : st.drc + oks.length ≤ U32 := by omega
        have hbnds := drawnVals_bounds oks st.drc hkb
        have hdrc2 : (applyOp maxN st (ProcOp.alloc sort nid true oks)).drc =
            (DRC_INIT + (n + oks.length)) % U32 := by
          rw [hdrc, create_lmbs_loop_drc oks st.drc node st.numa.lmb_count
            st.numa.cpuless_lmb_count [] hdlt, hdval]
          congr 1
          omega
        have htr2 : ∀ x ∈ (applyOp maxN st (ProcOp.alloc sort nid true oks)).trace,
            x < DRC_INIT + (n + oks.length) := by
          intro x hx
          rw [htr] at hx
          rcases List.mem_append.mp hx with hx | hx
          · have := h2 x hx; omega
          · have := hbnds x hx; omega
        have hpw2 : (applyOp maxN st (ProcOp.alloc sort nid true oks)).trace.Pairwise
            (· < ·) := by
          rw [htr]
          rw [List.pairwise_append]
          refine ⟨h3, drawnVals_pairwise oks st.drc hkb, ?_⟩
          intro a ha b hbmem
          have hha := h2 a ha
          have hhb := hbnds b hbmem
          omega
        obtain ⟨m, hm, hx1, hx2, hx3⟩ := ih (n + oks.length)
          (applyOp maxN st (ProcOp.alloc sort nid true oks))
          hdrc2 htr2 hpw2 (by omega)
        refine ⟨oks.length + m, by rw [drawCount_alloc_cons]; omega, ?_, ?_, hx3⟩
        · rw [hx1]; congr 1; omega
        · intro x hx
          have := hx2 x hx
          omega
      · have heq : DRC_INIT + n = U32 := by omega
        have hk0 : oks.length = 0 := by omega
        have hr0 : drawCount rest = 0 := by omega
        have hoks : oks = [] := List.length_eq_zero.mp hk0
        subst hoks
        have hdrc2 : (applyOp maxN st (ProcOp.alloc sort nid true [])).drc =
            (DRC_INIT + n) % U32 := by
          rw [hdrc]
          exact h1
        have htr2 : (applyOp maxN st (ProcOp.alloc sort nid true [])).trace =
            st.trace := by
          rw [htr]
          simp [drawnVals]
        obtain ⟨m, hm, hx1, hx2, hx3⟩ := ih n
          (applyOp maxN st (ProcOp.alloc sort nid true []))
          hdrc2 (by rw [htr2]; exact h2) (by rw [htr2]; exact h3) (by omega)
        exact ⟨m, by omega, hx1, hx2, hx3⟩

/-- C3 amended: within one process lifetime — across allocator calls,
node fetches and fresh topology builds — the DRC indices assigned to
successfully created blocks are pairwise distinct and strictly
increasing in allocation order, provided the total number of counter
draws stays within `2^32 - 0xdeadbeef` (= 559,038,737); beyond that the
32-bit counter wraps and the guarantee fails. -/
theorem drc_indices_increasing_below_wrap (maxN : Int) (ops : List ProcOp)
    (h : DRC_INIT + drawCount ops ≤ U32) :
    ((runProc maxN ops initPState).trace).Pairwise (· < ·) ∧
    ((runProc maxN ops initPState).trace).Nodup := by
  obtain ⟨m, _, _, _, hp⟩ := runProc_trace_inv maxN ops 0 initPState
    (by decide)
    (by intro x hx; simp [initPState] at hx)
    (by simp [initPState])
    (by simpa using h)
  exact ⟨hp, hp.imp (fun hxy => Nat.ne_of_lt hxy)⟩

/-- C3 amended witness: a lifetime of two topology builds — create node
0, give it two blocks, start a fresh topology, create node 1, give it
three blocks with the middle creation failing — keeps the assigned
indices strictly increasing and distinct. -/
theorem drc_indices_increasing_below_wrap_witness :
    ((runProc 256 [ProcOp.fetch 0 true, ProcOp.alloc 0 0 true [true, true],
        ProcOp.newTopology, ProcOp.fetch 1 true,
        ProcOp.alloc 0 1 true [true, false, true]] initPState).trace).Pairwise
      (· < ·) ∧
    ((runProc 256 [ProcOp.fetch 0 true, ProcOp.alloc 0 0 true [true, true],
        ProcOp.newTopology, ProcOp.fetch 1 true,
        ProcOp.alloc 0 1 true [true, false, true]] initPState).trace).Nodup :=
  drc_indices_increasing_below_wrap 256
    [ProcOp.fetch 0 true, ProcOp.alloc 0 0 true [true, true],
     ProcOp.newTopology, ProcOp.fetch 1 true,
     ProcOp.alloc 0 1 true [true, false, true]] (by decide)

/-- C3 counterexample: one process lifetime that creates node 0 and
then allocates 559,038,738 blocks to it, every creation succeeding.
The static 32-bit counter starts at 0xdeadbeef and wraps: the block at
allocation position 559,038,736 receives DRC index 4294967295 and the
next one receives 0, so the assigned indices are not strictly
increasing in allocation order. -/
theorem drc_indices_wrap_not_increasing :
    ¬ (((runProc 256 [ProcOp.fetch 0 true,
          ProcOp.alloc 0 0 true (List.replicate 559038738 true)]
          initPState).trace).Nodup ∧
       ((runProc 256 [ProcOp.fetch 0 true,
          ProcOp.alloc 0 0 true (List.replicate 559038738 true)]
          initPState).trace).Pairwise (· < ·)) := by
  intro hcl
  have hlk : lookupNode
      (applyOp 256 initPState (ProcOp.fetch 0 true)).numa.nodes 0 =
      some { node_id := 0, n_cpus := 0, n_lmbs := 0, lmbs := [] } := rfl
  have htr : (runProc 256 [ProcOp.fetch 0 true,
      ProcOp.alloc 0 0 true (List.replicate 559038738 true)] initPState).trace =
      drawnVals DRC_INIT (List.replicate 559038738 true) := by
    show (create_lmbs_st 0 0 true (List.replicate 559038738 true)
      (applyOp 256 initPState (ProcOp.fetch 0 true))).trace = _
    rw [create_lmbs_st_trace 0 0 (List.replicate 559038738 true)
      (applyOp 256 initPState (ProcOp.fetch 0 true))
      { node_id := 0, n_cpus := 0, n_lmbs := 0, lmbs := [] } hlk]
    have h3 : (applyOp 256 initPState (ProcOp.fetch 0 true)).trace = [] := rfl
    have h4 : (applyOp 256 initPState (ProcOp.fetch 0 true)).drc = DRC_INIT := rfl
    rw [h3, h4]
    exact List.nil_append _
  rw [htr] at hcl
  have hlen : (drawnVals DRC_INIT (List.replicate 559038738 true)).length =
      559038738 := by
    rw [drawnVals_length]
    rw [List.count_replicate_self]
  have hi1 : (559038736 : Nat) <
      (drawnVals DRC_INIT (List.replicate 559038738 true)).length := by
    omega
  have hi2 : (559038737 : Nat) <
      (drawnVals DRC_INIT (List.replicate 559038738 true)).length := by
    omega
  have hg1 := drawnVals_replicate_get 559038738 DRC_INIT 559038736
    (by decide) (by omega)
  have hg2 := drawnVals_replicate_get 559038738 DRC_INIT 559038737
    (by decide) (by omega)
  have hv1 : (DRC_INIT + 559038736) % U32 = 4294967295 := by decide
  have hv2 : (DRC_INIT + 559038737) % U32 = 0 := by decide
  rw [hv1] at hg1
  rw [hv2] at hg2
  rw [List.get?_eq_get hi1] at hg1
  rw [List.get?_eq_get hi2] at hg2
  have hmono := List.pairwise_iff_get.mp hcl.2 ⟨559038736, hi1⟩ ⟨559038737, hi2⟩
    (by exact Nat.lt_succ_self _)
  rw [Option.some.injEq] at hg1 hg2
  rw [hg1, hg2] at hmono
  omega

end CommonNuma
